import Mathlib

/-!
Shallow embedding of the customer synchronization and code-assignment
subsystem of the GESTIONALEticket repository:

* `services/customer_codes.py`   — base-26 customer code codec and allocator
* `services/customer_sync.py`    — candidate reconciliation against the store
* `services/google_calendar_client.py` — candidate extraction from events

Python strings are modelled as Lean `String`; `str.strip()` is modelled by
`pyStrip` (ASCII whitespace) and `str.lower()` / SQL `LOWER` by `pyLower`
(ASCII case folding), which agree with the originals on the ASCII data the
subsystem manipulates.  SQLite rows are modelled as a list in rowid
(insertion) order; `fetchone()` on an unordered `SELECT` returns the first
row in that order.  Python `ValueError` is modelled as `Except String`,
carrying the exact message so that distinct error conditions stay
distinguishable.
-/

/-- ASCII whitespace stripping of a character list: drop from the front,
then from the back (model of Python `str.strip()`). -/
def pyStripData (l : List Char) : List Char :=
  (((l.dropWhile Char.isWhitespace).reverse.dropWhile Char.isWhitespace).reverse)

/-- Model of Python `str.strip()`. -/
def pyStrip (s : String) : String := ⟨pyStripData s.data⟩

/-- Model of Python `str.lower()` and of SQLite `LOWER` (ASCII folding). -/
def pyLower (s : String) : String := ⟨s.data.map Char.toLower⟩

/-- Python truthiness of an `Optional[str]`: `None` and `''` are falsy. -/
def truthy : Option String → Bool
  | some s => s ≠ ""
  | none => false

/-- Python `x or y` on `Optional[str]` values: `y` when `x` is falsy. -/
def pyOr (x y : Option String) : Option String :=
  if truthy x then x else y

/-- Python `(x or '').strip() or None`: trim, and normalize empty to `None`. -/
def normOpt (x : Option String) : Option String :=
  let t := pyStrip (x.getD "")
  if t = "" then none else some t

/-! ## services/customer_codes.py -/

/-- `CUSTOMER_CODE_ALPHABET = 'abcdefghijklmnopqrstuvwxyz'`. -/
def CUSTOMER_CODE_ALPHABET : List Char := "abcdefghijklmnopqrstuvwxyz".data

/-- `CUSTOMER_CODE_LENGTH = 4`. -/
def CUSTOMER_CODE_LENGTH : Nat := 4

/-- `MAX_CUSTOMER_CODES = len(CUSTOMER_CODE_ALPHABET) ** CUSTOMER_CODE_LENGTH`. -/
def MAX_CUSTOMER_CODES : Nat := CUSTOMER_CODE_ALPHABET.length ^ CUSTOMER_CODE_LENGTH

/-- Message of the invalid-code `ValueError`. -/
def invalidCodeMsg : String := "Codice cliente non valido."

/-- Message of the out-of-range `ValueError` in `int_to_customer_code`. -/
def outOfRangeMsg : String := "Valore codice cliente fuori intervallo."

/-- Message of the allocation-exhausted `ValueError`. -/
def exhaustedMsg : String := "Limite massimo per i codici cliente raggiunto."

/-- The `for char in normalized` accumulation loop of `customer_code_to_int`:
`value = value * base + (ord(char) - ord('a'))`, failing on a character
outside the alphabet. -/
def decodeChars : List Char → Nat → Except String Nat
  | [], value => .ok value
  | ch :: rest, value =>
    if ch ∈ CUSTOMER_CODE_ALPHABET then
      decodeChars rest (value * CUSTOMER_CODE_ALPHABET.length + (ch.toNat - 'a'.toNat))
    else
      .error invalidCodeMsg

/-- `customer_code_to_int(code)`: normalize with `strip().lower()`, check the
length, then decode base 26 most-significant first. -/
def customer_code_to_int (code : String) : Except String Nat :=
  let normalized := pyLower (pyStrip code)
  if normalized.data.length ≠ CUSTOMER_CODE_LENGTH then .error invalidCodeMsg
  else decodeChars normalized.data 0

/-- The digit-extraction loop of `int_to_customer_code`, least significant
digit first (the Python loop fills `chars` from index 3 down to 0). -/
def encodeDigitsLE : Nat → Nat → List Char
  | 0, _ => []
  | n + 1, value => Char.ofNat ('a'.toNat + value % CUSTOMER_CODE_ALPHABET.length)
      :: encodeDigitsLE n (value / CUSTOMER_CODE_ALPHABET.length)

/-- `int_to_customer_code(value)`.  The argument is a `Nat`: the Python guard
`0 <= value` is automatic, and every caller in the source passes a
non-negative integer. -/
def int_to_customer_code (value : Nat) : Except String String :=
  if value < MAX_CUSTOMER_CODES then
    .ok ⟨(encodeDigitsLE CUSTOMER_CODE_LENGTH value).reverse⟩
  else
    .error outOfRangeMsg

/-! ## Data model: `customers` rows, stats, store -/

/-- One row of the `customers` table, restricted to the columns the sync
subsystem reads or writes (`id` plus the five columns named in its SQL). -/
structure Row where
  id : Nat
  code : Option String
  name : String
  email : Option String
  phone : Option String
  address : Option String
deriving DecidableEq, Repr

/-- The `stats` dictionary of `sync_customers`. -/
structure Stats where
  total : Nat
  created : Nat
  updated : Nat
  skipped : Nat
deriving DecidableEq, Repr

/-- The customers table: rows in rowid (insertion) order plus the next
autoincrement id. -/
structure Store where
  rows : List Row
  nextId : Nat
deriving DecidableEq, Repr

/-- The `WHERE code IS NOT NULL AND code != ''` filter: the stored code of a
row when it is non-`NULL` and non-empty. -/
def storedCode (r : Row) : Option String :=
  match r.code with
  | some c => if c ≠ "" then some c else none
  | none => none

/-- Strict lexicographic comparison of character lists: the SQLite BINARY
collation (bytewise `memcmp` order, shorter prefix first), which the
`ORDER BY code DESC` of the allocator's query uses. -/
def strLtB : List Char → List Char → Bool
  | [], [] => false
  | [], _ :: _ => true
  | _ :: _, [] => false
  | a :: as, b :: bs => if a < b then true else if b < a then false else strLtB as bs

/-- One comparison step of a running string maximum. -/
def maxStep (acc : Option String) (c : String) : Option String :=
  match acc with
  | none => some c
  | some m => if strLtB m.data c.data then some c else some m

/-- The `SELECT code FROM customers WHERE code IS NOT NULL AND code != ''
ORDER BY code DESC LIMIT 1` query: the maximum non-empty stored code under
the string (binary-collation) order, if any. -/
def maxCode (rows : List Row) : Option String :=
  (rows.filterMap storedCode).foldl maxStep none

/-- `generate_next_customer_code(db)`: read the maximum stored code, decode,
increment, re-encode; `"aaaa"` when no code exists. -/
def generate_next_customer_code (rows : List Row) : Except String String :=
  match maxCode rows with
  | none => int_to_customer_code 0
  | some code =>
    match customer_code_to_int code with
    | .error e => .error e
    | .ok current =>
      if current + 1 ≥ MAX_CUSTOMER_CODES then .error exhaustedMsg
      else int_to_customer_code (current + 1)

/-! ## services/customer_sync.py -/

/-- The `Customer` dataclass of `customer_sync.py` (normalized record). -/
structure Customer where
  name : String
  email : Option String := none
  phone : Option String := none
  address : Option String := none
  source_event_id : Option String := none
deriving DecidableEq, Repr

/-- The `CalendarCustomerCandidate` dataclass of `google_calendar_client.py`.
The `raw_event` field (the verbatim event dictionary, never read by the sync
service) is omitted. -/
structure CalendarCustomerCandidate where
  name : String
  email : Option String
  phone : Option String
  address : Option String
  notes : Option String
  event_id : Option String
deriving DecidableEq, Repr

/-- `Customer.from_candidate`. -/
def Customer.from_candidate (c : CalendarCustomerCandidate) : Customer :=
  { name := pyStrip c.name
    email := normOpt c.email
    phone := normOpt c.phone
    address := normOpt c.address
    source_event_id := c.event_id }

/-- Predicate of the query `SELECT * FROM customers WHERE LOWER(email) =
LOWER(?)`: a `NULL` stored email never compares equal. -/
def emailMatches (cand : String) (r : Row) : Bool :=
  match r.email with
  | some e => pyLower e == pyLower cand
  | none => false

/-- Predicate of the query `SELECT * FROM customers WHERE phone = ?`
(exact comparison; `NULL` never matches). -/
def phoneMatches (cand : String) (r : Row) : Bool :=
  match r.phone with
  | some p => p == cand
  | none => false

/-- Predicate of the query `SELECT * FROM customers WHERE LOWER(name) =
LOWER(?)`. -/
def nameMatches (cand : String) (r : Row) : Bool :=
  pyLower r.name == pyLower cand

/-- The `if customer.email:` guarded email query of `_find_existing`. -/
def lookupEmail (rows : List Row) (c : Customer) : Option Row :=
  if truthy c.email then rows.find? (emailMatches (c.email.getD "")) else none

/-- The `if customer.phone:` guarded phone query of `_find_existing`. -/
def lookupPhone (rows : List Row) (c : Customer) : Option Row :=
  if truthy c.phone then rows.find? (phoneMatches (c.phone.getD "")) else none

/-- The unconditional name query of `_find_existing`. -/
def lookupName (rows : List Row) (c : Customer) : Option Row :=
  rows.find? (nameMatches c.name)

/-- `CustomerSyncService._find_existing`: email lookup when the candidate
email is truthy, then phone lookup when the phone is truthy, then name
lookup; each `fetchone()` returns the first row in rowid order. -/
def find_existing (rows : List Row) (c : Customer) : Option Row :=
  match lookupEmail rows c with
  | some r => some r
  | none =>
    match lookupPhone rows c with
    | some r => some r
    | none => lookupName rows c

/-- The row inserted by `INSERT INTO customers (code, name, email, phone,
address) VALUES (?, ?, ?, ?, ?)`, with the autoincrement id. -/
def newRow (id : Nat) (code : String) (c : Customer) : Row :=
  { id := id, code := some code, name := c.name
    email := c.email, phone := c.phone, address := c.address }

/-- The Python normalization `(value or '').strip()` applied to an optional
field before the change comparison. -/
def normField (x : Option String) : String := pyStrip (x.getD "")

/-- The row produced by the `UPDATE customers SET ... WHERE id = ?`
statement: exactly the fields whose normalized value differs are set to the
candidate's (raw) value; the loop visits name, email, phone, address. -/
def updateRow (c : Customer) (r : Row) : Row :=
  { r with
    name := if pyStrip r.name ≠ pyStrip c.name then c.name else r.name
    email := if normField r.email ≠ normField c.email then c.email else r.email
    phone := if normField r.phone ≠ normField c.phone then c.phone else r.phone
    address := if normField r.address ≠ normField c.address then c.address else r.address }

/-- `if updates:` — whether any of the four tracked fields differs after
normalization. -/
def anyFieldDiffers (c : Customer) (r : Row) : Bool :=
  (pyStrip r.name != pyStrip c.name)
    || (normField r.email != normField c.email)
    || (normField r.phone != normField c.phone)
    || (normField r.address != normField c.address)

/-- A code allocator threaded through a batch, with state `σ`.  The source
calls `generate_next_customer_code(self.connection)`, whose only input is
the current table contents; the state parameter lets a test force failures
on chosen calls, as the spec's batch-resilience scenario does. -/
def Alloc (σ : Type) : Type := σ → List Row → Except String String × σ

/-- The repository's allocator: stateless `generate_next_customer_code`. -/
def realAlloc : Alloc Unit := fun _ rows => (generate_next_customer_code rows, ())

/-- The body of the `for customer in customers` loop of `sync_customers`:
count the candidate, look up an existing row, then create / update / skip.
A `ValueError` from the allocator (of either message) is caught and turned
into a skip. -/
def syncStep {σ : Type} (alloc : Alloc σ) (acc : Store × Stats × σ) (c : Customer) :
    Store × Stats × σ :=
  let store := acc.1
  let stats := acc.2.1
  let s := acc.2.2
  let stats := { stats with total := stats.total + 1 }
  match find_existing store.rows c with
  | none =>
    match alloc s store.rows with
    | (.error _, s') => (store, { stats with skipped := stats.skipped + 1 }, s')
    | (.ok code, s') =>
      (⟨store.rows ++ [newRow store.nextId code c], store.nextId + 1⟩,
       { stats with created := stats.created + 1 }, s')
  | some existing =>
    if anyFieldDiffers c existing then
      (⟨store.rows.map fun row => if row.id = existing.id then updateRow c row else row,
        store.nextId⟩,
       { stats with updated := stats.updated + 1 }, s)
    else
      (store, { stats with skipped := stats.skipped + 1 }, s)

/-- The zero-initialised `stats` dictionary. -/
def initStats : Stats := ⟨0, 0, 0, 0⟩

/-- `sync_customers` generalized over the allocator. -/
def sync_customers_with {σ : Type} (alloc : Alloc σ) (store : Store) (s : σ)
    (customers : List Customer) : Store × Stats × σ :=
  customers.foldl (syncStep alloc) (store, initStats, s)

/-- `CustomerSyncService.sync_customers`: fold the loop body over the
candidate list with the repository's allocator. -/
def sync_customers (store : Store) (customers : List Customer) : Store × Stats :=
  let r := sync_customers_with realAlloc store () customers
  (r.1, r.2.1)

/-- `CustomerSyncService.sync_candidates`: keep the candidates with a truthy
`name`, convert them with `Customer.from_candidate`, and sync. -/
def sync_candidates (store : Store) (candidates : List CalendarCustomerCandidate) :
    Store × Stats :=
  sync_customers store
    (((candidates.filter fun cand => cand.name ≠ "").map Customer.from_candidate))

/-! ## services/google_calendar_client.py -/

/-- One entry of an event's `attendees` list, with the fields the extractor
reads (`resource` is the truthiness of the attendee's `resource` flag). -/
structure Attendee where
  email : Option String := none
  displayName : Option String := none
  resource : Bool := false
deriving DecidableEq, Repr

/-- A raw calendar event, restricted to the keys `_event_to_candidate`
reads; `event.get('attendees') or []` is modelled by the plain list. -/
structure Event where
  id : Option String := none
  summary : Option String := none
  description : Option String := none
  location : Option String := none
  attendees : List Attendee := []
deriving DecidableEq, Repr

/-- The fields `_parse_description` can recover from the free text. -/
structure ParsedFields where
  email : Option String := none
  phone : Option String := none
  address : Option String := none
deriving DecidableEq, Repr

/-- `_parse_description(description)`.  `if not description: return {}` is
kept literally; the three regular-expression scans over a non-empty
description are abstracted as the parameter `patterns`, since the claims
settled here do not depend on the scan results. -/
def parse_description (patterns : String → ParsedFields) (description : String) :
    ParsedFields :=
  if description = "" then {} else patterns description

/-- The `for attendee in attendees` loop of `_event_to_candidate`: skip
resource attendees, keep the first truthy email (`email = email or
attendee.get('email')`), fill an empty name from the first non-empty
trimmed display name, and break once both are set. -/
def attendeeScan : List Attendee → Option String → String → Option String × String
  | [], email, name => (email, name)
  | a :: rest, email, name =>
    if a.resource then attendeeScan rest email name
    else
      let email := pyOr email a.email
      let displayName := pyStrip (a.displayName.getD "")
      let name := if name = "" ∧ displayName ≠ "" then displayName else name
      if truthy email ∧ name ≠ "" then (email, name)
      else attendeeScan rest email name

/-- `GoogleCalendarClient._event_to_candidate`, parameterized by the
description scanner (see `parse_description`). -/
def event_to_candidate (patterns : String → ParsedFields) (event : Event) :
    Option CalendarCustomerCandidate :=
  let summary := pyStrip (event.summary.getD "")
  let description := pyStrip (event.description.getD "")
  let location := pyStrip (event.location.getD "")
  let scanned := attendeeScan event.attendees none summary
  let email := scanned.1
  let name := scanned.2
  if name = "" then none
  else
    let parsed := parse_description patterns description
    let email := pyOr email parsed.email
    let phone := parsed.phone
    let address := pyOr parsed.address (some location)
    let notes := if description = "" then none else some description
    some
      { name := pyStrip name
        email := normOpt email
        phone := normOpt phone
        address := normOpt address
        notes := notes
        event_id := event.id }

/-- `GoogleCalendarClient.extract_customers`: per-event extraction, dropping
events that yield no candidate, preserving order. -/
def extract_customers (patterns : String → ParsedFields) (events : List Event) :
    List CalendarCustomerCandidate :=
  events.filterMap (event_to_candidate patterns)

/-! ## Spec-side matching definition (for the refinement claim C1) -/

/-- The matching procedure as the spec describes it, with the phone lookup
corrected to an exact comparison: in strict priority order with first match
winning, (1) a stored customer with the same email case-insensitively when
the candidate email is present, (2) a stored customer with exactly the same
phone when the candidate phone is present, (3) a stored customer with the
same name case-insensitively; otherwise the candidate is new. -/
def findExistingSpec (rows : List Row) (c : Customer) : Option Row :=
  let byEmail :=
    if truthy c.email then
      rows.find? fun r => r.email.map pyLower == some (pyLower (c.email.getD ""))
    else none
  let byPhone :=
    if truthy c.phone then
      rows.find? fun r => r.phone == some (c.phone.getD "")
    else none
  match byEmail with
  | some r => some r
  | none =>
    match byPhone with
    | some r => some r
    | none => rows.find? fun r => pyLower r.name == pyLower c.name

/-! ## Code-codec lemmas -/

/-- The alphabet as an explicit character list. -/
theorem alphabet_eq :
    CUSTOMER_CODE_ALPHABET =
      ['a','b','c','d','e','f','g','h','i','j','k','l','m',
       'n','o','p','q','r','s','t','u','v','w','x','y','z'] := by
  decide

theorem alphabet_length : CUSTOMER_CODE_ALPHABET.length = 26 := by decide

theorem a_toNat : 'a'.toNat = 97 := rfl

theorem max_codes_eq : MAX_CUSTOMER_CODES = 456976 := by decide

/-- Facts about any character of the code alphabet. -/
theorem alpha_facts {ch : Char} (h : ch ∈ CUSTOMER_CODE_ALPHABET) :
    97 ≤ ch.toNat ∧ ch.toNat ≤ 122 ∧ Char.ofNat ch.toNat = ch ∧
      ch.isWhitespace = false ∧ ch.toLower = ch := by
  rw [alphabet_eq] at h
  fin_cases h <;> refine ⟨?_, ?_, ?_, ?_, ?_⟩ <;> decide

/-- A well-formed customer code: four characters, all from the alphabet. -/
def ValidCode (s : String) : Prop :=
  s.data.length = 4 ∧ ∀ ch ∈ s.data, ch ∈ CUSTOMER_CODE_ALPHABET

instance : DecidablePred ValidCode := fun s => by
  unfold ValidCode; infer_instance

theorem pyStripData_valid {c0 c1 c2 c3 : Char}
    (h0 : c0.isWhitespace = false) (h3 : c3.isWhitespace = false) :
    pyStripData [c0, c1, c2, c3] = [c0, c1, c2, c3] := by
  simp [pyStripData, List.dropWhile_cons, h0, h3]

/-- Decoding four alphabet characters. -/
theorem decodeChars_four {c0 c1 c2 c3 : Char}
    (m0 : c0 ∈ CUSTOMER_CODE_ALPHABET) (m1 : c1 ∈ CUSTOMER_CODE_ALPHABET)
    (m2 : c2 ∈ CUSTOMER_CODE_ALPHABET) (m3 : c3 ∈ CUSTOMER_CODE_ALPHABET) :
    decodeChars [c0, c1, c2, c3] 0 =
      .ok ((((c0.toNat - 97) * 26 + (c1.toNat - 97)) * 26 + (c2.toNat - 97)) * 26
            + (c3.toNat - 97)) := by
  simp [decodeChars, m0, m1, m2, m3, alphabet_length, a_toNat]

/-- Round-trip core: a valid code decodes without error to a value below
`MAX_CUSTOMER_CODES`, and re-encoding that value returns the code. -/
theorem code_roundtrip (s : String) (hv : ValidCode s) :
    ∃ v, customer_code_to_int s = .ok v ∧ v < MAX_CUSTOMER_CODES ∧
      int_to_customer_code v = .ok s := by
  obtain ⟨l⟩ := s
  obtain ⟨hlen, hmem⟩ := hv
  rcases l with _ | ⟨c0, _ | ⟨c1, _ | ⟨c2, _ | ⟨c3, _ | _⟩⟩⟩⟩ <;> simp at hlen
  have m0 : c0 ∈ CUSTOMER_CODE_ALPHABET := hmem c0 (by simp)
  have m1 : c1 ∈ CUSTOMER_CODE_ALPHABET := hmem c1 (by simp)
  have m2 : c2 ∈ CUSTOMER_CODE_ALPHABET := hmem c2 (by simp)
  have m3 : c3 ∈ CUSTOMER_CODE_ALPHABET := hmem c3 (by simp)
  obtain ⟨lb0, ub0, of0, ws0, lo0⟩ := alpha_facts m0
  obtain ⟨lb1, ub1, of1, ws1, lo1⟩ := alpha_facts m1
  obtain ⟨lb2, ub2, of2, ws2, lo2⟩ := alpha_facts m2
  obtain ⟨lb3, ub3, of3, ws3, lo3⟩ := alpha_facts m3
  have hstrip : pyStrip ⟨[c0, c1, c2, c3]⟩ = ⟨[c0, c1, c2, c3]⟩ := by
    show (⟨pyStripData [c0, c1, c2, c3]⟩ : String) = _
    rw [pyStripData_valid ws0 ws3]
  have hlower : pyLower ⟨[c0, c1, c2, c3]⟩ = ⟨[c0, c1, c2, c3]⟩ := by
    show (⟨[c0.toLower, c1.toLower, c2.toLower, c3.toLower]⟩ : String) = _
    rw [lo0, lo1, lo2, lo3]
  refine ⟨(((c0.toNat - 97) * 26 + (c1.toNat - 97)) * 26 + (c2.toNat - 97)) * 26
            + (c3.toNat - 97), ?_, ?_, ?_⟩
  · show customer_code_to_int ⟨[c0, c1, c2, c3]⟩ = _
    unfold customer_code_to_int
    rw [hstrip, hlower]
    simpa using decodeChars_four m0 m1 m2 m3
  · rw [max_codes_eq]; omega
  · unfold int_to_customer_code
    rw [if_pos (by rw [max_codes_eq]; omega)]
    have e3 : 97 + ((((c0.toNat - 97) * 26 + (c1.toNat - 97)) * 26 + (c2.toNat - 97)) * 26
        + (c3.toNat - 97)) % 26 = c3.toNat := by omega
    have q3 : ((((c0.toNat - 97) * 26 + (c1.toNat - 97)) * 26 + (c2.toNat - 97)) * 26
        + (c3.toNat - 97)) / 26
        = ((c0.toNat - 97) * 26 + (c1.toNat - 97)) * 26 + (c2.toNat - 97) := by omega
    have e2 : 97 + (((c0.toNat - 97) * 26 + (c1.toNat - 97)) * 26 + (c2.toNat - 97)) % 26
        = c2.toNat := by omega
    have q2 : (((c0.toNat - 97) * 26 + (c1.toNat - 97)) * 26 + (c2.toNat - 97)) / 26
        = (c0.toNat - 97) * 26 + (c1.toNat - 97) := by omega
    have e1 : 97 + ((c0.toNat - 97) * 26 + (c1.toNat - 97)) % 26 = c1.toNat := by omega
    have q1 : ((c0.toNat - 97) * 26 + (c1.toNat - 97)) / 26 = c0.toNat - 97 := by omega
    have e0 : 97 + (c0.toNat - 97) % 26 = c0.toNat := by omega
    have q0 : (c0.toNat - 97) / 26 = 0 := by omega
    show Except.ok (⟨(encodeDigitsLE 4 _).reverse⟩ : String) = _
    simp only [encodeDigitsLE, alphabet_length, a_toNat]
    rw [e3, q3, e2, q2, e1, q1, e0, of0, of1, of2, of3]
    simp

/-- A character outside the alphabet anywhere in the input makes the
decoding loop fail. -/
theorem decodeChars_bad {l : List Char} {ch : Char} (hm : ch ∈ l)
    (hb : ch ∉ CUSTOMER_CODE_ALPHABET) :
    ∀ v, decodeChars l v = .error invalidCodeMsg := by
  induction l with
  | nil => cases hm
  | cons a rest ih =>
    intro v
    by_cases ha : a ∈ CUSTOMER_CODE_ALPHABET
    · have hrest : ch ∈ rest := by
        rcases List.mem_cons.mp hm with h | h
        · exact absurd (h ▸ ha) hb
        · exact h
      simp [decodeChars, ha, ih hrest]
    · simp [decodeChars, ha]

theorem encodeDigitsLE_length : ∀ n v, (encodeDigitsLE n v).length = n := by
  intro n
  induction n with
  | zero => intro v; rfl
  | succ k ih => intro v; simp [encodeDigitsLE, ih]

theorem ofNat_digit_mem {d : Nat} (hd : d < 26) :
    Char.ofNat (97 + d) ∈ CUSTOMER_CODE_ALPHABET := by
  interval_cases d <;> decide

theorem encodeDigitsLE_mem : ∀ n v, ∀ ch ∈ encodeDigitsLE n v,
    ch ∈ CUSTOMER_CODE_ALPHABET := by
  intro n
  induction n with
  | zero => intro v ch h; cases h
  | succ k ih =>
    intro v ch h
    rcases List.mem_cons.mp h with h | h
    · rw [h, alphabet_length, a_toNat]
      exact ofNat_digit_mem (Nat.mod_lt _ (by omega))
    · exact ih _ ch h

/-- Encoding any in-range value succeeds and yields a valid code. -/
theorem encode_valid {v : Nat} (hv : v < MAX_CUSTOMER_CODES) :
    ∃ s, int_to_customer_code v = .ok s ∧ ValidCode s := by
  refine ⟨⟨(encodeDigitsLE CUSTOMER_CODE_LENGTH v).reverse⟩, ?_, ?_, ?_⟩
  · unfold int_to_customer_code
    rw [if_pos hv]
  · show (encodeDigitsLE CUSTOMER_CODE_LENGTH v).reverse.length = 4
    rw [List.length_reverse, encodeDigitsLE_length]
    rfl
  · intro ch h
    exact encodeDigitsLE_mem _ _ ch (List.mem_reverse.mp h)

/-- Membership for the fold computing the maximum stored code. -/
theorem foldl_max_mem : ∀ (l : List String) (acc : Option String) (m : String),
    l.foldl maxStep acc = some m → m ∈ l ∨ acc = some m := by
  intro l
  induction l with
  | nil => intro acc m h; exact .inr h
  | cons a rest ih =>
    intro acc m h
    simp only [List.foldl_cons] at h
    rcases ih _ _ h with hm | hacc
    · exact .inl (List.mem_cons_of_mem _ hm)
    · cases acc with
      | none =>
        simp only [maxStep, Option.some.injEq] at hacc
        exact .inl (hacc ▸ List.mem_cons_self _ _)
      | some x =>
        simp only [maxStep] at hacc
        by_cases hlt : strLtB x.data a.data = true
        · rw [if_pos hlt, Option.some.injEq] at hacc
          exact .inl (hacc ▸ List.mem_cons_self _ _)
        · rw [if_neg hlt] at hacc
          exact .inr hacc

/-- A computed maximum code is one of the stored non-empty codes. -/
theorem maxCode_mem {rows : List Row} {m : String} (h : maxCode rows = some m) :
    ∃ r ∈ rows, r.code = some m ∧ m ≠ "" := by
  unfold maxCode at h
  rcases foldl_max_mem _ _ _ h with hm | hnone
  · obtain ⟨r, hr, hf⟩ := List.mem_filterMap.mp hm
    refine ⟨r, hr, ?_⟩
    cases hc : r.code with
    | none => simp [storedCode, hc] at hf
    | some c =>
      simp only [storedCode, hc] at hf
      by_cases hne : c ≠ ""
      · rw [if_pos hne, Option.some.injEq] at hf
        exact ⟨congrArg some hf, hf ▸ hne⟩
      · rw [if_neg hne] at hf; cases hf
  · cases hnone

/-- When no row carries a truthy code, no maximum exists. -/
theorem maxCode_none {rows : List Row} (h : ∀ r ∈ rows, truthy r.code = false) :
    maxCode rows = none := by
  unfold maxCode
  have hnil : rows.filterMap storedCode = [] := by
    rw [List.filterMap_eq_nil_iff]
    intro r hr
    have := h r hr
    cases hc : r.code with
    | none => simp [storedCode, hc]
    | some c =>
      rw [hc] at this
      simp only [truthy, decide_eq_false_iff_not, not_not] at this
      simp [storedCode, hc, this]
  rw [hnil]
  rfl

/-! ## Claims C5, C6, C7 -/

/-- Claim C6 (confirmed): round-trip law — decoding any valid 4-character
lowercase code and re-encoding the value returns the same string. -/
theorem claim_C6_code_roundtrip (c : String) (h : ValidCode c) :
    ∃ v, customer_code_to_int c = .ok v ∧ int_to_customer_code v = .ok c := by
  obtain ⟨v, h1, _, h3⟩ := code_roundtrip c h
  exact ⟨v, h1, h3⟩

theorem claim_C6_code_roundtrip_witness :
    ValidCode "carz" ∧
      ∃ v, customer_code_to_int "carz" = .ok v ∧ int_to_customer_code v = .ok "carz" :=
  ⟨by decide, claim_C6_code_roundtrip "carz" (by decide)⟩

/-- Decoding input made only of alphabet characters always succeeds. -/
theorem decodeChars_ok : ∀ (l : List Char) (v : Nat),
    (∀ ch ∈ l, ch ∈ CUSTOMER_CODE_ALPHABET) → ∃ n, decodeChars l v = .ok n := by
  intro l
  induction l with
  | nil => intro v _; exact ⟨v, rfl⟩
  | cons a rest ih =>
    intro v h
    have ha : a ∈ CUSTOMER_CODE_ALPHABET := h a (by simp)
    obtain ⟨n, hn⟩ := ih (v * CUSTOMER_CODE_ALPHABET.length + (a.toNat - 'a'.toNat))
      (fun ch hch => h ch (List.mem_cons_of_mem _ hch))
    refine ⟨n, ?_⟩
    show (if a ∈ CUSTOMER_CODE_ALPHABET then
        decodeChars rest (v * CUSTOMER_CODE_ALPHABET.length + (a.toNat - 'a'.toNat))
      else .error invalidCodeMsg) = .ok n
    rw [if_pos ha]
    exact hn

/-- Claim C7, amended (corrected): the wrong-length / bad-character check is
applied to the input only after `strip().lower()` normalization, so the
invalid-code error is raised exactly for the inputs whose normalized form is
malformed — and for no others. -/
theorem claim_C7_malformed_decode (s : String) :
    customer_code_to_int s = .error invalidCodeMsg ↔
      (pyLower (pyStrip s)).data.length ≠ 4 ∨
        ∃ ch ∈ (pyLower (pyStrip s)).data, ch ∉ CUSTOMER_CODE_ALPHABET := by
  constructor
  · intro herr
    by_contra hno
    push_neg at hno
    obtain ⟨hlen, hgood⟩ := hno
    obtain ⟨n, hok⟩ := decodeChars_ok (pyLower (pyStrip s)).data 0 hgood
    unfold customer_code_to_int at herr
    rw [if_neg (fun hne => hne hlen), hok] at herr
    cases herr
  · intro h
    unfold customer_code_to_int
    by_cases hl : (pyLower (pyStrip s)).data.length ≠ CUSTOMER_CODE_LENGTH
    · rw [if_pos hl]
    · rw [if_neg hl]
      rcases h with h | ⟨ch, hm, hb⟩
      · exact absurd h hl
      · exact decodeChars_bad hm hb 0

theorem claim_C7_malformed_decode_witness :
    customer_code_to_int "ab!d" = .error invalidCodeMsg :=
  (claim_C7_malformed_decode "ab!d").mpr (Or.inr ⟨'!', by decide, by decide⟩)

/-- Claim C7 counterexample: `"ABCD"` contains characters outside `a`-`z`
and `" aaab "` does not have length 4, yet both decode successfully, because
the validation happens after `strip().lower()`. -/
theorem claim_C7_counterexample :
    ('A' ∈ "ABCD".data ∧ 'A' ∉ CUSTOMER_CODE_ALPHABET ∧
        customer_code_to_int "ABCD" = .ok 731)
      ∧ (" aaab ".data.length ≠ 4 ∧ customer_code_to_int " aaab " = .ok 1) :=
  ⟨⟨by decide, by decide, rfl⟩, by decide, rfl⟩

/-- Claim C5 (confirmed): `generate_next_customer_code` returns `"aaaa"`
when no customer has a non-empty code; otherwise (for well-formed stored
codes) it returns the 4-character encoding of the decoded maximum code plus
one, and it fails with the allocation-exhausted error exactly when the
maximum stored code is `"zzzz"`. -/
theorem claim_C5_generate_next_code (rows : List Row)
    (hvalid : ∀ r ∈ rows, ∀ s, r.code = some s → s ≠ "" → ValidCode s) :
    ((∀ r ∈ rows, truthy r.code = false) → generate_next_customer_code rows = .ok "aaaa")
    ∧ (∀ m, maxCode rows = some m → m ≠ "zzzz" →
        ∃ v, customer_code_to_int m = .ok v ∧ v + 1 < MAX_CUSTOMER_CODES ∧
          generate_next_customer_code rows = int_to_customer_code (v + 1) ∧
          ∃ s, int_to_customer_code (v + 1) = .ok s ∧ ValidCode s)
    ∧ (generate_next_customer_code rows = .error exhaustedMsg ↔
        maxCode rows = some "zzzz") := by
  have hvm : ∀ m, maxCode rows = some m → ValidCode m := by
    intro m h
    obtain ⟨r, hr, hc, hne⟩ := maxCode_mem h
    exact hvalid r hr m hc hne
  refine ⟨?_, ?_, ?_, ?_⟩
  · intro h
    unfold generate_next_customer_code
    rw [maxCode_none h]
    rfl
  · intro m hm hne
    obtain ⟨v, hdec, hlt, henc⟩ := code_roundtrip m (hvm m hm)
    have hsucc : v + 1 < MAX_CUSTOMER_CODES := by
      rcases Nat.lt_or_ge (v + 1) MAX_CUSTOMER_CODES with h | h
      · exact h
      · exfalso
        have hv : v = 456975 := by rw [max_codes_eq] at hlt h; omega
        have hz : int_to_customer_code 456975 = .ok "zzzz" := rfl
        rw [hv, hz] at henc
        cases henc
        exact hne rfl
    refine ⟨v, hdec, hsucc, ?_, encode_valid hsucc⟩
    simp only [generate_next_customer_code, hm, hdec]
    rw [if_neg (not_le.mpr hsucc)]
  · intro h
    cases hm : maxCode rows with
    | none =>
      exfalso
      simp only [generate_next_customer_code, hm] at h
      have : int_to_customer_code 0 = .ok "aaaa" := rfl
      rw [this] at h
      cases h
    | some m =>
      obtain ⟨v, hdec, hlt, henc⟩ := code_roundtrip m (hvm m hm)
      simp only [generate_next_customer_code, hm, hdec] at h
      by_cases hge : v + 1 ≥ MAX_CUSTOMER_CODES
      · have hv : v = 456975 := by rw [max_codes_eq] at hlt hge; omega
        have hz : int_to_customer_code 456975 = .ok "zzzz" := rfl
        rw [hv, hz] at henc
        cases henc
        rfl
      · exfalso
        rw [if_neg hge] at h
        obtain ⟨s, hs, _⟩ := encode_valid (Nat.lt_of_not_le hge)
        rw [hs] at h
        cases h
  · intro hm
    have hdec : customer_code_to_int "zzzz" = .ok 456975 := rfl
    simp only [generate_next_customer_code, hm, hdec]
    rw [if_pos (by rw [max_codes_eq])]

theorem claim_C5_generate_next_code_witness :
    ∃ v, customer_code_to_int "aaab" = .ok v ∧ v + 1 < MAX_CUSTOMER_CODES ∧
      generate_next_customer_code [⟨1, some "aaab", "Anna", none, none, none⟩]
        = int_to_customer_code (v + 1) ∧
      ∃ s, int_to_customer_code (v + 1) = .ok s ∧ ValidCode s :=
  (claim_C5_generate_next_code [⟨1, some "aaab", "Anna", none, none, none⟩]
    (by
      intro r hr s hs hne
      rw [List.mem_singleton] at hr
      subst hr
      cases hs
      decide)).2.1 "aaab" rfl (by decide)

/-! ## Matching lemmas -/

/-- `find_existing` returns no row exactly when each of its component
lookups returns no row. -/
theorem find_existing_none_iff (rows : List Row) (c : Customer) :
    find_existing rows c = none ↔
      lookupEmail rows c = none ∧ lookupPhone rows c = none ∧
        lookupName rows c = none := by
  unfold find_existing
  cases he : lookupEmail rows c with
  | some r => simp [he]
  | none =>
    cases hp : lookupPhone rows c with
    | some r => simp [hp]
    | none => simp [hp]

theorem emailMatches_newRow {c : Customer} (h : truthy c.email = true)
    (id : Nat) (code : String) :
    emailMatches (c.email.getD "") (newRow id code c) = true := by
  cases hc : c.email with
  | none => rw [hc] at h; cases h
  | some e => simp [emailMatches, newRow, hc]

theorem phoneMatches_newRow {c : Customer} (h : truthy c.phone = true)
    (id : Nat) (code : String) :
    phoneMatches (c.phone.getD "") (newRow id code c) = true := by
  cases hc : c.phone with
  | none => rw [hc] at h; cases h
  | some p => simp [phoneMatches, newRow, hc]

theorem nameMatches_newRow (c : Customer) (id : Nat) (code : String) :
    nameMatches c.name (newRow id code c) = true := by
  simp [nameMatches, newRow]

/-- A row freshly inserted for a candidate differs from it in no tracked
field. -/
theorem anyFieldDiffers_newRow (c : Customer) (id : Nat) (code : String) :
    anyFieldDiffers c (newRow id code c) = false := by
  simp [anyFieldDiffers, newRow]

/-- If a candidate matched nothing in a prefix of the table, then after its
own row is inserted just past that prefix, `_find_existing` finds exactly
that row. -/
theorem find_existing_append {pre : List Row} {c : Customer}
    (h : find_existing pre c = none) (post : List Row) (id : Nat) (code : String) :
    find_existing (pre ++ newRow id code c :: post) c = some (newRow id code c) := by
  obtain ⟨he, hp, hn⟩ := (find_existing_none_iff pre c).mp h
  unfold find_existing
  by_cases hte : truthy c.email
  · have hpre : pre.find? (emailMatches (c.email.getD "")) = none := by
      unfold lookupEmail at he
      rwa [if_pos hte] at he
    have : lookupEmail (pre ++ newRow id code c :: post) c
        = some (newRow id code c) := by
      unfold lookupEmail
      rw [if_pos hte, List.find?_append, hpre,
        List.find?_cons_of_pos _ (emailMatches_newRow hte id code)]
      rfl
    rw [this]
  · have hnone : lookupEmail (pre ++ newRow id code c :: post) c = none := by
      unfold lookupEmail
      rw [if_neg hte]
    rw [hnone]
    by_cases htp : truthy c.phone
    · have hpre : pre.find? (phoneMatches (c.phone.getD "")) = none := by
        unfold lookupPhone at hp
        rwa [if_pos htp] at hp
      have : lookupPhone (pre ++ newRow id code c :: post) c
          = some (newRow id code c) := by
        unfold lookupPhone
        rw [if_pos htp, List.find?_append, hpre,
          List.find?_cons_of_pos _ (phoneMatches_newRow htp id code)]
        rfl
      rw [this]
    · have hpnone : lookupPhone (pre ++ newRow id code c :: post) c = none := by
        unfold lookupPhone
        rw [if_neg htp]
      rw [hpnone]
      have hnpre : pre.find? (nameMatches c.name) = none := hn
      unfold lookupName
      rw [List.find?_append, hnpre,
        List.find?_cons_of_pos _ (nameMatches_newRow c id code)]
      rfl

/-! ## Sync loop lemmas -/

theorem syncStep_new_ok {σ : Type} (alloc : Alloc σ) (store : Store) (stats : Stats)
    (s : σ) (c : Customer) {code : String} {s' : σ}
    (hfe : find_existing store.rows c = none)
    (ha : alloc s store.rows = (.ok code, s')) :
    syncStep alloc (store, stats, s) c =
      (⟨store.rows ++ [newRow store.nextId code c], store.nextId + 1⟩,
       { stats with total := stats.total + 1, created := stats.created + 1 }, s') := by
  unfold syncStep
  simp only [hfe, ha]

theorem syncStep_new_err {σ : Type} (alloc : Alloc σ) (store : Store) (stats : Stats)
    (s : σ) (c : Customer) {msg : String} {s' : σ}
    (hfe : find_existing store.rows c = none)
    (ha : alloc s store.rows = (.error msg, s')) :
    syncStep alloc (store, stats, s) c =
      (store, { stats with total := stats.total + 1, skipped := stats.skipped + 1 }, s') := by
  unfold syncStep
  simp only [hfe, ha]

theorem syncStep_matched_diff {σ : Type} (alloc : Alloc σ) (store : Store) (stats : Stats)
    (s : σ) (c : Customer) {r : Row}
    (hfe : find_existing store.rows c = some r)
    (hd : anyFieldDiffers c r = true) :
    syncStep alloc (store, stats, s) c =
      (⟨store.rows.map fun row => if row.id = r.id then updateRow c row else row,
        store.nextId⟩,
       { stats with total := stats.total + 1, updated := stats.updated + 1 }, s) := by
  unfold syncStep
  simp only [hfe, hd, if_true]

theorem syncStep_matched_same {σ : Type} (alloc : Alloc σ) (store : Store) (stats : Stats)
    (s : σ) (c : Customer) {r : Row}
    (hfe : find_existing store.rows c = some r)
    (hd : anyFieldDiffers c r = false) :
    syncStep alloc (store, stats, s) c =
      (store, { stats with total := stats.total + 1, skipped := stats.skipped + 1 }, s) := by
  unfold syncStep
  simp only [hfe, hd, if_false]
  rfl

/-- Every loop iteration counts the candidate exactly once. -/
theorem syncStep_total {σ : Type} (alloc : Alloc σ) (acc : Store × Stats × σ)
    (c : Customer) :
    (syncStep alloc acc c).2.1.total = acc.2.1.total + 1 := by
  obtain ⟨store, stats, s⟩ := acc
  cases hfe : find_existing store.rows c with
  | none =>
    rcases ha : alloc s store.rows with ⟨res, s'⟩
    cases res with
    | error msg => rw [syncStep_new_err alloc store stats s c hfe ha]
    | ok code => rw [syncStep_new_ok alloc store stats s c hfe ha]
  | some r =>
    cases hd : anyFieldDiffers c r with
    | false => rw [syncStep_matched_same alloc store stats s c hfe hd]
    | true => rw [syncStep_matched_diff alloc store stats s c hfe hd]

/-- One iteration increases `created` by at most one. -/
theorem syncStep_created_le {σ : Type} (alloc : Alloc σ) (acc : Store × Stats × σ)
    (c : Customer) :
    (syncStep alloc acc c).2.1.created ≤ acc.2.1.created + 1 := by
  obtain ⟨store, stats, s⟩ := acc
  cases hfe : find_existing store.rows c with
  | none =>
    rcases ha : alloc s store.rows with ⟨res, s'⟩
    cases res with
    | error msg => rw [syncStep_new_err alloc store stats s c hfe ha]; dsimp only; omega
    | ok code => rw [syncStep_new_ok alloc store stats s c hfe ha]
  | some r =>
    cases hd : anyFieldDiffers c r with
    | false => rw [syncStep_matched_same alloc store stats s c hfe hd]; dsimp only; omega
    | true => rw [syncStep_matched_diff alloc store stats s c hfe hd]; dsimp only; omega

theorem syncFold_total {σ : Type} (alloc : Alloc σ) :
    ∀ (cs : List Customer) (acc : Store × Stats × σ),
      (cs.foldl (syncStep alloc) acc).2.1.total = acc.2.1.total + cs.length := by
  intro cs
  induction cs with
  | nil => intro acc; rfl
  | cons c rest ih =>
    intro acc
    rw [List.foldl_cons, ih, syncStep_total]
    simp [Nat.add_assoc, Nat.add_comm 1 rest.length]

theorem syncFold_created_le {σ : Type} (alloc : Alloc σ) :
    ∀ (cs : List Customer) (acc : Store × Stats × σ),
      (cs.foldl (syncStep alloc) acc).2.1.created ≤ acc.2.1.created + cs.length := by
  intro cs
  induction cs with
  | nil => intro acc; simp
  | cons c rest ih =>
    intro acc
    rw [List.foldl_cons]
    calc (rest.foldl (syncStep alloc) (syncStep alloc acc c)).2.1.created
        ≤ (syncStep alloc acc c).2.1.created + rest.length := ih _
      _ ≤ acc.2.1.created + 1 + rest.length := by
          have := syncStep_created_le alloc acc c; omega
      _ = acc.2.1.created + (c :: rest).length := by simp; omega

/-- In a batch whose every candidate ends up created, the first candidate
matched no stored row and its allocation succeeded. -/
theorem syncFold_all_created_head {σ : Type} (alloc : Alloc σ) (store : Store)
    (stats : Stats) (s : σ) (c : Customer) (cs : List Customer)
    (H : ((c :: cs).foldl (syncStep alloc) (store, stats, s)).2.1.created
        = stats.created + (c :: cs).length) :
    ∃ code s', find_existing store.rows c = none ∧
      alloc s store.rows = (.ok code, s') ∧
      syncStep alloc (store, stats, s) c =
        (⟨store.rows ++ [newRow store.nextId code c], store.nextId + 1⟩,
         { stats with total := stats.total + 1, created := stats.created + 1 }, s') := by
  rw [List.foldl_cons] at H
  cases hfe : find_existing store.rows c with
  | none =>
    rcases ha : alloc s store.rows with ⟨res, s'⟩
    cases res with
    | error msg =>
      exfalso
      rw [syncStep_new_err alloc store stats s c hfe ha] at H
      have := syncFold_created_le alloc cs
        (store, { stats with total := stats.total + 1, skipped := stats.skipped + 1 }, s')
      rw [H] at this
      dsimp only at this
      simp only [List.length_cons] at this
      omega
    | ok code =>
      exact ⟨code, s', rfl, rfl, syncStep_new_ok alloc store stats s c hfe ha⟩
  | some r =>
    exfalso
    cases hd : anyFieldDiffers c r with
    | false =>
      rw [syncStep_matched_same alloc store stats s c hfe hd] at H
      have := syncFold_created_le alloc cs
        (store, { stats with total := stats.total + 1, skipped := stats.skipped + 1 }, s)
      rw [H] at this
      dsimp only at this
      simp only [List.length_cons] at this
      omega
    | true =>
      rw [syncStep_matched_diff alloc store stats s c hfe hd] at H
      have := syncFold_created_le alloc cs
        (⟨store.rows.map fun row => if row.id = r.id then updateRow c row else row,
          store.nextId⟩,
         { stats with total := stats.total + 1, updated := stats.updated + 1 }, s)
      rw [H] at this
      dsimp only at this
      simp only [List.length_cons] at this
      omega

/-- An all-created batch only appends rows: the final table extends the
initial one. -/
theorem syncFold_all_created_rows {σ : Type} (alloc : Alloc σ) :
    ∀ (cs : List Customer) (store : Store) (stats : Stats) (s : σ),
      (cs.foldl (syncStep alloc) (store, stats, s)).2.1.created
          = stats.created + cs.length →
      ∃ ext, (cs.foldl (syncStep alloc) (store, stats, s)).1.rows
          = store.rows ++ ext := by
  intro cs
  induction cs with
  | nil => intro store stats s _; exact ⟨[], by simp⟩
  | cons c rest ih =>
    intro store stats s H
    obtain ⟨code, s', hfe, ha, hstep⟩ :=
      syncFold_all_created_head alloc store stats s c rest H
    rw [List.foldl_cons, hstep] at H ⊢
    have H' : (rest.foldl (syncStep alloc)
        (⟨store.rows ++ [newRow store.nextId code c], store.nextId + 1⟩,
         { stats with total := stats.total + 1, created := stats.created + 1 }, s')).2.1.created
        = ({ stats with total := stats.total + 1, created := stats.created + 1 } : Stats).created
          + rest.length := by
      dsimp only
      simp only [List.length_cons] at H
      omega
    obtain ⟨ext, hext⟩ := ih _ _ _ H'
    rw [hext]
    exact ⟨newRow store.nextId code c :: ext, by simp⟩

/-- Re-running an all-created batch against the resulting table skips every
candidate and leaves the table untouched. -/
theorem syncFold_resync {σ : Type} (alloc : Alloc σ) :
    ∀ (cs : List Customer) (store : Store) (stats₀ : Stats) (s₀ : σ)
      (stats₁ : Stats) (s₁ : σ),
      (cs.foldl (syncStep alloc) (store, stats₀, s₀)).2.1.created
          = stats₀.created + cs.length →
      cs.foldl (syncStep alloc)
          ((cs.foldl (syncStep alloc) (store, stats₀, s₀)).1, stats₁, s₁)
        = ((cs.foldl (syncStep alloc) (store, stats₀, s₀)).1,
           { stats₁ with total := stats₁.total + cs.length,
                         skipped := stats₁.skipped + cs.length }, s₁) := by
  intro cs
  induction cs with
  | nil =>
    intro store stats₀ s₀ stats₁ s₁ _
    simp
  | cons c rest ih =>
    intro store stats₀ s₀ stats₁ s₁ H
    obtain ⟨code, s', hfe, ha, hstep⟩ :=
      syncFold_all_created_head alloc store stats₀ s₀ c rest H
    set store₁ : Store :=
      ⟨store.rows ++ [newRow store.nextId code c], store.nextId + 1⟩ with hstore₁
    set stats₀' : Stats :=
      { stats₀ with total := stats₀.total + 1, created := stats₀.created + 1 }
      with hstats₀'
    have hrun1 : List.foldl (syncStep alloc) (store, stats₀, s₀) (c :: rest)
        = List.foldl (syncStep alloc) (store₁, stats₀', s') rest := by
      rw [List.foldl_cons, hstep]
    rw [hrun1] at H ⊢
    have H' : (rest.foldl (syncStep alloc) (store₁, stats₀', s')).2.1.created
        = stats₀'.created + rest.length := by
      have hc : stats₀'.created = stats₀.created + 1 := by rw [hstats₀']
      simp only [List.length_cons] at H
      omega
    obtain ⟨ext, hext⟩ := syncFold_all_created_rows alloc rest store₁ stats₀' s' H'
    have hmatch : find_existing
        (rest.foldl (syncStep alloc) (store₁, stats₀', s')).1.rows c
        = some (newRow store.nextId code c) := by
      rw [hext, hstore₁]
      dsimp only
      rw [List.append_assoc, List.singleton_append]
      exact find_existing_append hfe ext store.nextId code
    have hstep₂ : syncStep alloc
        ((rest.foldl (syncStep alloc) (store₁, stats₀', s')).1, stats₁, s₁) c
        = ((rest.foldl (syncStep alloc) (store₁, stats₀', s')).1,
           { stats₁ with total := stats₁.total + 1, skipped := stats₁.skipped + 1 },
           s₁) :=
      syncStep_matched_same alloc _ stats₁ s₁ c hmatch
        (anyFieldDiffers_newRow c store.nextId code)
    rw [List.foldl_cons, hstep₂, ih store₁ stats₀' s' _ s₁ H']
    simp only [List.length_cons, Prod.mk.injEq, Stats.mk.injEq,
      eq_self_iff_true, and_true, true_and]
    omega

/-! ## Claims C1, C2, C3, C4, C10 -/

theorem find?_congr_pred {α : Type} {p q : α → Bool} (h : ∀ a, p a = q a) :
    ∀ l : List α, l.find? p = l.find? q := by
  intro l
  induction l with
  | nil => rfl
  | cons a rest ih => rw [List.find?_cons, List.find?_cons, h a, ih]

/-- Claim C1, amended (corrected): `_find_existing` implements the spec's
priority matching with first match winning, where the email and name
lookups are case-insensitive but the phone lookup is an exact comparison. -/
theorem claim_C1_matching_priority (rows : List Row) (c : Customer) :
    find_existing rows c = findExistingSpec rows c := by
  unfold find_existing findExistingSpec lookupEmail lookupPhone lookupName
  have he : rows.find? (emailMatches (c.email.getD ""))
      = rows.find? fun r => r.email.map pyLower == some (pyLower (c.email.getD "")) :=
    find?_congr_pred (fun r => by cases hr : r.email <;> simp [emailMatches, hr]) rows
  have hp : rows.find? (phoneMatches (c.phone.getD ""))
      = rows.find? fun r => r.phone == some (c.phone.getD "") :=
    find?_congr_pred (fun r => by cases hr : r.phone <;> simp [phoneMatches, hr]) rows
  have hn : rows.find? (nameMatches c.name)
      = rows.find? fun r => pyLower r.name == pyLower c.name :=
    find?_congr_pred (fun r => rfl) rows
  rw [he, hp, hn]

/-- The stored row and candidate used to refute the case-insensitive phone
lookup of claim C1. -/
def c1exRow : Row := ⟨1, some "aaaa", "Anna", none, some "AB-1", none⟩

/-- Candidate whose phone equals the stored one only up to case. -/
def c1exCand : Customer := ⟨"Luigi", none, some "ab-1", none, none⟩

/-- Claim C1 counterexample: a candidate whose phone matches a stored
customer's phone case-insensitively (but not exactly) is treated as new —
the phone lookup is not case-insensitive. -/
theorem claim_C1_counterexample :
    c1exCand.phone = some "ab-1" ∧ c1exRow.phone = some "AB-1" ∧
      pyLower "AB-1" = pyLower "ab-1" ∧
      find_existing [c1exRow] c1exCand = none ∧
      (sync_customers ⟨[c1exRow], 2⟩ [c1exCand]).2.created = 1 := by
  decide

/-- Claim C2, amended (corrected): when the first run of `sync_candidates`
creates every candidate (`created = K` with `K` the number of retained
candidates), re-running the identical list against the resulting store is a
no-op: `total = K`, `created = 0`, `updated = 0`, `skipped = K`, and the
store is unchanged. -/
theorem claim_C2_resync_noop (store : Store) (cands : List CalendarCustomerCandidate)
    (H : (sync_candidates store cands).2.created
        = ((cands.filter fun cd => cd.name ≠ "").map Customer.from_candidate).length) :
    sync_candidates (sync_candidates store cands).1 cands
      = ((sync_candidates store cands).1,
         ⟨((cands.filter fun cd => cd.name ≠ "").map Customer.from_candidate).length, 0, 0,
          ((cands.filter fun cd => cd.name ≠ "").map Customer.from_candidate).length⟩) := by
  unfold sync_candidates sync_customers sync_customers_with at H ⊢
  dsimp only at H ⊢
  have H' : (((cands.filter fun cd => cd.name ≠ "").map Customer.from_candidate).foldl
      (syncStep realAlloc) (store, initStats, ())).2.1.created
      = initStats.created
        + ((cands.filter fun cd => cd.name ≠ "").map Customer.from_candidate).length := by
    rw [H]
    simp [initStats]
  rw [syncFold_resync realAlloc _ store initStats () initStats () H']
  simp [initStats]

/-- Candidates used to refute claim C2 as stated: they share an email but
carry different names, so the first run updates (rather than creates) the
second one and the second run keeps flipping the stored name. -/
def c2exCand1 : CalendarCustomerCandidate := ⟨"Mario", some "a@x.com", none, none, none, none⟩

/-- Second candidate of the C2 counterexample. -/
def c2exCand2 : CalendarCustomerCandidate := ⟨"Luigi", some "a@x.com", none, none, none, none⟩

/-- Claim C2 counterexample: the first run returns `created = 1` and
`skipped = 0` (so no allocation failure occurred), yet the second identical
run returns `updated = 2` and `skipped = 0`, not `updated = 0` and
`skipped = 1`. -/
theorem claim_C2_counterexample :
    (sync_candidates ⟨[], 1⟩ [c2exCand1, c2exCand2]).2.created = 1 ∧
      (sync_candidates ⟨[], 1⟩ [c2exCand1, c2exCand2]).2.skipped = 0 ∧
      (sync_candidates (sync_candidates ⟨[], 1⟩ [c2exCand1, c2exCand2]).1
          [c2exCand1, c2exCand2]).2 = ⟨2, 0, 2, 0⟩ := by
  decide

theorem claim_C2_resync_noop_witness :
    (sync_candidates ⟨[], 1⟩
        [⟨"Anna", some "a@x.com", none, none, none, none⟩,
         ⟨"Luigi", none, none, none, none, none⟩]).2.created = 2 ∧
      sync_candidates
          (sync_candidates ⟨[], 1⟩
            [⟨"Anna", some "a@x.com", none, none, none, none⟩,
             ⟨"Luigi", none, none, none, none, none⟩]).1
          [⟨"Anna", some "a@x.com", none, none, none, none⟩,
           ⟨"Luigi", none, none, none, none, none⟩]
        = ((sync_candidates ⟨[], 1⟩
            [⟨"Anna", some "a@x.com", none, none, none, none⟩,
             ⟨"Luigi", none, none, none, none, none⟩]).1, ⟨2, 0, 0, 2⟩) :=
  ⟨by decide, claim_C2_resync_noop ⟨[], 1⟩ _ (by decide)⟩

/-- Claim C3, amended (corrected): the `except ValueError` in
`sync_customers` catches every `ValueError` the allocator raises — the
allocation-exhausted one and the invalid-code one alike — converting it
into a skip, after which the batch continues with the remaining
candidates. -/
theorem claim_C3_allocator_error_skips (store : Store) (stats : Stats) (c : Customer)
    (rest : List Customer) (msg : String)
    (hfe : find_existing store.rows c = none)
    (ha : generate_next_customer_code store.rows = .error msg) :
    (c :: rest).foldl (syncStep realAlloc) (store, stats, ())
      = rest.foldl (syncStep realAlloc)
          (store, { stats with total := stats.total + 1,
                               skipped := stats.skipped + 1 }, ()) := by
  rw [List.foldl_cons,
    syncStep_new_err realAlloc store stats () c hfe
      (show (generate_next_customer_code store.rows, ()) = (Except.error msg, ()) by
        rw [ha])]

/-- The corrupt store of the C3 scenario: its only (and hence maximum)
stored code has the wrong length. -/
def c3exRow : Row := ⟨1, some "abc", "Anna", none, none, none⟩

theorem claim_C3_allocator_error_skips_witness :
    find_existing [c3exRow] ⟨"Luigi", none, none, none, none⟩ = none ∧
      generate_next_customer_code [c3exRow] = .error invalidCodeMsg ∧
      [(⟨"Luigi", none, none, none, none⟩ : Customer),
          ⟨"Marco", none, none, none, none⟩].foldl
          (syncStep realAlloc) (⟨[c3exRow], 2⟩, ⟨0, 0, 0, 0⟩, ())
        = [(⟨"Marco", none, none, none, none⟩ : Customer)].foldl
            (syncStep realAlloc) (⟨[c3exRow], 2⟩, ⟨1, 0, 0, 1⟩, ()) :=
  ⟨by decide, rfl,
    claim_C3_allocator_error_skips ⟨[c3exRow], 2⟩ ⟨0, 0, 0, 0⟩
      ⟨"Luigi", none, none, none, none⟩ [⟨"Marco", none, none, none, none⟩]
      invalidCodeMsg (by decide) rfl⟩

/-- Claim C3 counterexample: with a corrupt stored maximum code the
allocator raises the invalid-code error, yet `sync_customers` completes the
whole two-candidate batch, converting both failures into skips instead of
propagating — the run is not aborted. -/
theorem claim_C3_counterexample :
    generate_next_customer_code [c3exRow] = .error invalidCodeMsg ∧
      sync_customers ⟨[c3exRow], 2⟩
          [⟨"Luigi", none, none, none, none⟩, ⟨"Marco", none, none, none, none⟩]
        = (⟨[c3exRow], 2⟩, ⟨2, 0, 0, 2⟩) :=
  ⟨rfl, by decide⟩

/-- An allocator that behaves like the repository's
`generate_next_customer_code` but is forced to fail on its `n`-th call —
the spec's simulated-exhaustion harness — counting calls in its state. -/
def failingAlloc (n : Nat) : Alloc Nat := fun k rows =>
  ((if k = n then .error exhaustedMsg else generate_next_customer_code rows), k + 1)

/-- Claim C4 (confirmed): when the allocator fails on exactly the 3rd of 5
all-new candidates, the batch still completes with `created = 4`,
`skipped = 1`, `total = 5`, and the rows of candidates 1, 2, 4, 5 are
present afterward while candidate 3's is not. -/
theorem claim_C4_batch_resilience :
    (sync_customers_with (failingAlloc 3) ⟨[], 1⟩ 1
          [⟨"Anna", none, none, none, none⟩, ⟨"Bruno", none, none, none, none⟩,
           ⟨"Carla", none, none, none, none⟩, ⟨"Dora", none, none, none, none⟩,
           ⟨"Elio", none, none, none, none⟩]).2.1 = ⟨5, 4, 0, 1⟩
      ∧ (sync_customers_with (failingAlloc 3) ⟨[], 1⟩ 1
          [⟨"Anna", none, none, none, none⟩, ⟨"Bruno", none, none, none, none⟩,
           ⟨"Carla", none, none, none, none⟩, ⟨"Dora", none, none, none, none⟩,
           ⟨"Elio", none, none, none, none⟩]).1.rows.map Row.name
          = ["Anna", "Bruno", "Dora", "Elio"]
      ∧ "Carla" ∉ (sync_customers_with (failingAlloc 3) ⟨[], 1⟩ 1
          [⟨"Anna", none, none, none, none⟩, ⟨"Bruno", none, none, none, none⟩,
           ⟨"Carla", none, none, none, none⟩, ⟨"Dora", none, none, none, none⟩,
           ⟨"Elio", none, none, none, none⟩]).1.rows.map Row.name := by
  decide

/-- Claim C10 (confirmed): `sync_candidates` drops candidates with an empty
name before syncing, its stats are exactly those of syncing the retained
candidates, `total` equals the number of retained candidates, and that
number never exceeds the input length; nameless candidates raise no error
and touch no counter. -/
theorem claim_C10_nameless_dropped (store : Store)
    (cands : List CalendarCustomerCandidate) :
    sync_candidates store cands
        = sync_customers store
            ((cands.filter fun cand => cand.name ≠ "").map Customer.from_candidate)
      ∧ (sync_candidates store cands).2.total
          = (cands.filter fun cand => cand.name ≠ "").length
      ∧ (cands.filter fun cand => cand.name ≠ "").length ≤ cands.length := by
  refine ⟨rfl, ?_, List.length_filter_le _ _⟩
  show (sync_customers store
      ((cands.filter fun cand => cand.name ≠ "").map Customer.from_candidate)).2.total = _
  unfold sync_customers sync_customers_with
  dsimp only
  rw [syncFold_total realAlloc]
  simp [initStats]

/-! ## Claim C8 -/

/-- The update statement leaves `id` untouched. -/
theorem updateRow_id (c : Customer) (r : Row) : (updateRow c r).id = r.id := rfl

/-- The update statement leaves `code` untouched. -/
theorem updateRow_code (c : Customer) (r : Row) : (updateRow c r).code = r.code := rfl

/-- Any sync batch, with any allocator, keeps every pre-existing row's `id`
and `code`: creation only appends, updates touch no `code`, skips change
nothing. -/
theorem syncFold_code_preserved {σ : Type} (alloc : Alloc σ) :
    ∀ (cs : List Customer) (acc : Store × Stats × σ) (r : Row), r ∈ acc.1.rows →
      ∃ r', r' ∈ (cs.foldl (syncStep alloc) acc).1.rows ∧
        r'.id = r.id ∧ r'.code = r.code := by
  intro cs
  induction cs with
  | nil => intro acc r hr; exact ⟨r, hr, rfl, rfl⟩
  | cons c rest ih =>
    intro acc r hr
    rw [List.foldl_cons]
    have hstep : ∃ r₁, r₁ ∈ (syncStep alloc acc c).1.rows ∧
        r₁.id = r.id ∧ r₁.code = r.code := by
      obtain ⟨store, stats, s⟩ := acc
      cases hfe : find_existing store.rows c with
      | none =>
        rcases ha : alloc s store.rows with ⟨res, s'⟩
        cases res with
        | error msg =>
          rw [syncStep_new_err alloc store stats s c hfe ha]
          exact ⟨r, hr, rfl, rfl⟩
        | ok code =>
          rw [syncStep_new_ok alloc store stats s c hfe ha]
          exact ⟨r, List.mem_append_left _ hr, rfl, rfl⟩
      | some ex =>
        cases hd : anyFieldDiffers c ex with
        | false =>
          rw [syncStep_matched_same alloc store stats s c hfe hd]
          exact ⟨r, hr, rfl, rfl⟩
        | true =>
          rw [syncStep_matched_diff alloc store stats s c hfe hd]
          refine ⟨if r.id = ex.id then updateRow c r else r,
            List.mem_map_of_mem _ hr, ?_, ?_⟩
          · by_cases h : r.id = ex.id
            · rw [if_pos h, updateRow_id]
            · rw [if_neg h]
          · by_cases h : r.id = ex.id
            · rw [if_pos h, updateRow_code]
            · rw [if_neg h]
    obtain ⟨r₁, h1, hid, hcode⟩ := hstep
    obtain ⟨r', h', hid', hcode'⟩ := ih _ r₁ h1
    exact ⟨r', h', hid'.trans hid, hcode'.trans hcode⟩

/-- Claim C8 (confirmed): for a matched candidate, the update touches
exactly the tracked fields whose trimmed value differs (each set to the
candidate's value) and leaves `id` and `code` (and every other row)
unchanged; when no field differs the step is a pure skip; and no sync
operation — create, update or skip, under any allocator — ever modifies a
stored row's `code`. -/
theorem claim_C8_update_frame (c : Customer) (r : Row) :
    ((updateRow c r).id = r.id ∧ (updateRow c r).code = r.code)
    ∧ (pyStrip r.name = pyStrip c.name → (updateRow c r).name = r.name)
    ∧ (pyStrip r.name ≠ pyStrip c.name → (updateRow c r).name = c.name)
    ∧ (normField r.email = normField c.email → (updateRow c r).email = r.email)
    ∧ (normField r.email ≠ normField c.email → (updateRow c r).email = c.email)
    ∧ (normField r.phone = normField c.phone → (updateRow c r).phone = r.phone)
    ∧ (normField r.phone ≠ normField c.phone → (updateRow c r).phone = c.phone)
    ∧ (normField r.address = normField c.address → (updateRow c r).address = r.address)
    ∧ (normField r.address ≠ normField c.address → (updateRow c r).address = c.address)
    ∧ (∀ (store : Store) (stats : Stats), find_existing store.rows c = some r →
        (anyFieldDiffers c r = false →
          syncStep realAlloc (store, stats, ()) c
            = (store, { stats with total := stats.total + 1,
                                   skipped := stats.skipped + 1 }, ()))
        ∧ (anyFieldDiffers c r = true →
          syncStep realAlloc (store, stats, ()) c
            = (⟨store.rows.map fun row => if row.id = r.id then updateRow c row else row,
                store.nextId⟩,
               { stats with total := stats.total + 1,
                            updated := stats.updated + 1 }, ())))
    ∧ (∀ (store : Store) (customers : List Customer) (row : Row), row ∈ store.rows →
        ∃ row', row' ∈ (sync_customers store customers).1.rows ∧
          row'.id = row.id ∧ row'.code = row.code) := by
  refine ⟨⟨updateRow_id c r, updateRow_code c r⟩,
    ?_, ?_, ?_, ?_, ?_, ?_, ?_, ?_, ?_, ?_⟩
  · intro h; simp [updateRow, h]
  · intro h; simp [updateRow, h]
  · intro h; simp [updateRow, h]
  · intro h; simp [updateRow, h]
  · intro h; simp [updateRow, h]
  · intro h; simp [updateRow, h]
  · intro h; simp [updateRow, h]
  · intro h; simp [updateRow, h]
  · intro store stats hfe
    exact ⟨fun hd => syncStep_matched_same realAlloc store stats () c hfe hd,
      fun hd => syncStep_matched_diff realAlloc store stats () c hfe hd⟩
  · intro store customers row hrow
    exact syncFold_code_preserved realAlloc customers (store, initStats, ()) row hrow

/-- Row and candidate of the C8 witness: only the phone differs. -/
def c8exRow : Row := ⟨1, some "aaaa", "Anna", some "a@x.com", some "111", none⟩

/-- Candidate of the C8 witness. -/
def c8exCand : Customer := ⟨"Anna", some "a@x.com", some "222", none, none⟩

theorem claim_C8_update_frame_witness :
    (updateRow c8exCand c8exRow).code = c8exRow.code ∧
      (updateRow c8exCand c8exRow).name = c8exRow.name ∧
      (updateRow c8exCand c8exRow).phone = c8exCand.phone :=
  ⟨(claim_C8_update_frame c8exCand c8exRow).1.2,
    (claim_C8_update_frame c8exCand c8exRow).2.1 (by decide),
    (claim_C8_update_frame c8exCand c8exRow).2.2.2.2.2.2.1 (by decide)⟩

/-! ## Claim C9 -/

/-- `pyStripData` is idempotent: a stripped list has no whitespace left at
either end. -/
theorem pyStripData_idem (l : List Char) : pyStripData (pyStripData l) = pyStripData l := by
  set p := Char.isWhitespace with hp
  set u := l.dropWhile p with hu
  set v := u.reverse.dropWhile p with hv
  show pyStripData v.reverse = v.reverse
  unfold pyStripData
  have h1 : v.reverse.dropWhile p = v.reverse := by
    cases hvr : v.reverse with
    | nil => simp
    | cons x xs =>
      have hx : p x = false := by
        have hh : v.reverse.head? = some x := by rw [hvr]; rfl
        rw [List.head?_reverse] at hh
        have hvne : v ≠ [] := by
          intro hnil
          rw [hnil] at hvr
          simp at hvr
        obtain ⟨pre, hpre⟩ := List.dropWhile_suffix (l := u.reverse) p
        have hlast : v.getLast? = u.reverse.getLast? := by
          rw [← hpre, List.getLast?_append_of_ne_nil _ hvne]
        rw [hlast, List.getLast?_reverse] at hh
        have hnot := List.head?_dropWhile_not p l
        rw [← hu, hh] at hnot
        exact hnot
      rw [List.dropWhile_cons_of_neg (by simp [hx])]
  rw [h1, List.reverse_reverse, hv, List.dropWhile_idempotent]

/-- `pyStrip` is idempotent. -/
theorem pyStrip_idem (s : String) : pyStrip (pyStrip s) = pyStrip s :=
  congrArg (fun l => (⟨l⟩ : String)) (pyStripData_idem s.data)

/-- The attendee loop never overwrites a non-empty name. -/
theorem attendeeScan_name_stable :
    ∀ (l : List Attendee) (email : Option String) (name : String), name ≠ "" →
      (attendeeScan l email name).2 = name := by
  intro l
  induction l with
  | nil => intro email name h; rfl
  | cons a rest ih =>
    intro email name h
    cases hres : a.resource with
    | true =>
      simp only [attendeeScan, hres, if_true]
      exact ih email name h
    | false =>
      simp only [attendeeScan, hres, Bool.false_eq_true, if_false, h, false_and,
        ne_eq, not_false_eq_true, and_true]
      by_cases hb : truthy (pyOr email a.email) = true
      · rw [if_pos hb]
      · rw [if_neg hb]
        exact ih _ name h

/-- Starting from an empty name, the attendee loop returns the trimmed
display name of the first non-resource attendee that has a non-empty one,
or leaves the name empty. -/
theorem attendeeScan_name_empty :
    ∀ (l : List Attendee) (email : Option String),
      (attendeeScan l email "").2 =
        match l.find? (fun a => !a.resource && !(pyStrip (a.displayName.getD "") == "")) with
        | some a => pyStrip (a.displayName.getD "")
        | none => "" := by
  intro l
  induction l with
  | nil => intro email; rfl
  | cons a rest ih =>
    intro email
    cases hres : a.resource with
    | true =>
      rw [List.find?_cons_of_neg _ (by simp [hres])]
      simp only [attendeeScan, hres, if_true]
      exact ih email
    | false =>
      by_cases hdn : pyStrip (a.displayName.getD "") = ""
      · rw [List.find?_cons_of_neg _ (by simp [hres, hdn])]
        simp only [attendeeScan, hres, Bool.false_eq_true, if_false, hdn, ne_eq,
          not_true_eq_false, and_false, not_false_eq_true, false_and]
        exact ih _
      · rw [List.find?_cons_of_pos _ (by simp [hres, hdn])]
        simp only [attendeeScan, hres, Bool.false_eq_true, if_false, hdn, ne_eq,
          not_false_eq_true, and_true, true_and, if_true]
        by_cases hb : truthy (pyOr email a.email) = true
        · simp only [hb, hdn, not_false_eq_true, and_true, if_true]
        · rw [if_neg (by simp [hb])]
          exact attendeeScan_name_stable rest _ _ hdn

/-- Claim C9, amended (corrected): a candidate's name is the trimmed event
summary; when that is empty it is the trimmed display name of the first
non-resource attendee having a non-empty display name (not necessarily the
first non-resource attendee); when no name results the event is
discarded. -/
theorem claim_C9_candidate_name (patterns : String → ParsedFields) (event : Event) :
    (pyStrip (event.summary.getD "") ≠ "" →
      ∃ cand, event_to_candidate patterns event = some cand ∧
        cand.name = pyStrip (event.summary.getD ""))
    ∧ (pyStrip (event.summary.getD "") = "" →
      (∀ a, event.attendees.find?
            (fun a => !a.resource && !(pyStrip (a.displayName.getD "") == "")) = some a →
        ∃ cand, event_to_candidate patterns event = some cand ∧
          cand.name = pyStrip (a.displayName.getD ""))
      ∧ (event.attendees.find?
            (fun a => !a.resource && !(pyStrip (a.displayName.getD "") == "")) = none →
        event_to_candidate patterns event = none)) := by
  constructor
  · intro hsum
    have hname : (attendeeScan event.attendees none (pyStrip (event.summary.getD ""))).2
        = pyStrip (event.summary.getD "") :=
      attendeeScan_name_stable _ _ _ hsum
    simp only [event_to_candidate, hname]
    rw [if_neg hsum]
    exact ⟨_, rfl, pyStrip_idem _⟩
  · intro hsum
    have hname := attendeeScan_name_empty event.attendees none
    constructor
    · intro a hfind
      rw [hfind] at hname
      have hname' : (attendeeScan event.attendees none "").2
          = pyStrip (a.displayName.getD "") := hname
      have hdn : pyStrip (a.displayName.getD "") ≠ "" := by
        have := List.find?_some hfind
        simp at this
        exact this.2
      simp only [event_to_candidate, hsum, hname']
      rw [if_neg hdn]
      exact ⟨_, rfl, pyStrip_idem _⟩
    · intro hfind
      rw [hfind] at hname
      have hname' : (attendeeScan event.attendees none "").2 = "" := hname
      simp only [event_to_candidate, hsum, hname']
      simp

/-- The event refuting the claim's "first non-resource attendee" reading:
no summary, its first non-resource attendee has no display name, its second
has one. -/
def c9exEvent : Event :=
  { id := some "e1"
    attendees := [⟨some "x@y.z", none, false⟩, ⟨none, some "Bob", false⟩] }

/-- Claim C9 counterexample: the event has no summary and its first
non-resource attendee has no display name, yet a candidate is produced —
named from the second attendee — where the claim says the event yields no
candidate.  (The event carries no description, for which the source's
description parser returns no fields, so the abstracted `patterns`
parameter is irrelevant; it is instantiated with the empty scanner.) -/
theorem claim_C9_counterexample :
    c9exEvent.summary = none ∧
      c9exEvent.attendees.head? = some ⟨some "x@y.z", none, false⟩ ∧
      (event_to_candidate (fun _ => ({} : ParsedFields)) c9exEvent).map
          CalendarCustomerCandidate.name = some "Bob" := by
  decide

theorem claim_C9_candidate_name_witness :
    pyStrip ((some " Alice " : Option String).getD "") ≠ "" ∧
      ∃ cand, event_to_candidate (fun _ => ({} : ParsedFields))
          { id := some "e3", summary := some " Alice " } = some cand ∧
        cand.name = pyStrip ((some " Alice " : Option String).getD "") :=
  ⟨by decide,
    (claim_C9_candidate_name (fun _ => ({} : ParsedFields))
      { id := some "e3", summary := some " Alice " }).1 (by decide)⟩
